import Mathlib

/-!
# Verification of the `insert-bia` PDF page-insertion tool

Shallow embedding of `src/insert-bia/src/main.rs` (filename normalisation,
base-identity extraction, Excel-mapping construction, filename matching and
the per-file merge orchestration of `process_pdf_with_qpdf`), together with
theorems checking the natural-language specification against it.

Modelling conventions:
* Rust `String`/`&str` values are Lean `String`s; byte positions of substring
  searches are replaced by character positions (occurrences of a pattern and
  the prefix before the first occurrence agree between the two views, since
  UTF-8 substring occurrences always fall on character boundaries).
* `u32` arithmetic is `Nat` with explicit `% 2 ^ 32` where the source casts
  (`i64 as u32` wraps two's-complement, `f64 as u32` saturates).
* Finite `f64` cell values are modelled as rationals; NaN and infinities are
  outside the model (the claims only concern finite values).
* The `calamine` spreadsheet reader, `qpdf` and the file system are external
  collaborators: rows, tool results and file contents are explicit inputs.
-/

namespace InsertBia

/-- Character-level first occurrence of `pat` inside `s` (Rust `str::find`
with a substring pattern). Returns the index of the leftmost match. -/
def findSubstr (s pat : String) : Option Nat :=
  (List.range (s.data.length + 1)).find?
    (fun i => (s.data.drop i).take pat.data.length == pat.data)

/-- Rust `str::contains` with a substring pattern. -/
def containsSubstr (s pat : String) : Bool :=
  (findSubstr s pat).isSome

/-- Rust `str::trim` (whitespace stripped from both ends; the model uses
`Char.isWhitespace`, covering the ASCII whitespace the tool meets). -/
def rustTrim (s : String) : String :=
  String.mk (((s.data.dropWhile Char.isWhitespace).reverse.dropWhile
    Char.isWhitespace).reverse)

/-- Split a character list at `'/'` separators. -/
def splitSlash : List Char → List (List Char)
  | [] => [[]]
  | c :: cs =>
    let r := splitSlash cs
    if c = '/' then [] :: r
    else
      match r with
      | [] => [[c]]
      | h :: t => (c :: h) :: t

/-- Rust `Path::new(s).file_name()` (Unix semantics): the last normal path
component; `None` for an empty path, a root, or a path whose last component
is `.` or `..`. -/
def rustFileName (s : String) : Option String :=
  let comps := (splitSlash s.data).filter (fun c => !(c == [] || c == ['.']))
  match comps.getLast? with
  | none => none
  | some c => if c = ['.', '.'] then none else some (String.mk c)

/-- The string `s` with the suffix `ext` removed when present (Rust
`str::strip_suffix` as used by `normalize_filename`). -/
def stripExt (s ext : String) : Option String :=
  if s.data.length ≥ ext.data.length ∧
      s.data.drop (s.data.length - ext.data.length) = ext.data then
    some (String.mk (s.data.take (s.data.length - ext.data.length)))
  else none

/-- Model of `normalize_filename` from the source: keep only the final path segment,
then drop a trailing `.pdf` or `.PDF`. -/
def normalize_filename (filename : String) : String :=
  let filename_only := (rustFileName filename).getD filename
  match stripExt filename_only ".pdf" with
  | some s => s
  | none =>
    match stripExt filename_only ".PDF" with
    | some s => s
    | none => filename_only

/-- The characters of `s` strictly before (character) position `pos`
(Rust's byte slice `&s[..pos]` at a match position). -/
def takeChars (s : String) (pos : Nat) : String :=
  String.mk (s.data.take pos)

/-- Model of `extract_base_name` from the source: normalise, then cut at the first
`" ("` if any, else at the first `"("` if any (trimming the kept prefix);
with no parenthesis the normalised value is returned unchanged. -/
def extract_base_name (filename : String) : String :=
  let normalized := normalize_filename filename
  match findSubstr normalized " (" with
  | some pos => rustTrim (takeChars normalized pos)
  | none =>
    match findSubstr normalized "(" with
    | some pos => rustTrim (takeChars normalized pos)
    | none => normalized

/-- Association-list view of the `HashMap<String, u32>` mapping table; the
list order stands for the map's (unspecified) iteration order. -/
def lookupTable : List (String × Nat) → String → Option Nat
  | [], _ => none
  | (a, b) :: t, k => if a = k then some b else lookupTable t k

/-- Model of `HashMap::insert`: overwrite the entry of an existing key, else append. -/
def insertTable : List (String × Nat) → String → Nat → List (String × Nat)
  | [], k, v => [(k, v)]
  | (a, b) :: t, k, v =>
    if a = k then (k, v) :: t else (a, b) :: insertTable t k v

/-- A spreadsheet cell as delivered by the external reader. All `calamine`
variants other than `String`, `Int` and `Float` are collapsed into `other`,
exactly as the source's `_ => continue` arms treat them. Finite `f64`
payloads are modelled as rationals. -/
inductive CellData where
  | str (s : String)
  | int (i : Int)
  | float (q : ℚ)
  | other
deriving DecidableEq

/-- Rust `f64 as u32`: truncate toward zero, saturating at `0` and
`2 ^ 32 - 1`. -/
def f64AsU32 (q : ℚ) : Nat :=
  if q ≤ 0 then 0 else min (Rat.floor q).toNat (2 ^ 32 - 1)

/-- Rust `i64 as u32`: two's-complement wrap, i.e. reduction mod `2 ^ 32`. -/
def i64AsU32 (i : Int) : Nat :=
  (i.emod (2 ^ 32)).toNat

/-- Column-A extraction of `read_excel_mappings`: strings are trimmed,
numeric cells stringified (`fts` is the external `f64` Display formatting,
kept abstract), other kinds skip the row. -/
def cellToFilename (fts : ℚ → String) : CellData → Option String
  | CellData.str s => some (rustTrim s)
  | CellData.float q => some (fts q)
  | CellData.int i => some (toString i)
  | CellData.other => none

/-- Column-B extraction of `read_excel_mappings`: the `u32` cast of an
integer or float cell, other kinds skip the row. -/
def cellToPageU32 : CellData → Option Nat
  | CellData.int i => some (i64AsU32 i)
  | CellData.float q => some (f64AsU32 q)
  | _ => none

/-- One loop iteration of `read_excel_mappings`: the entry a raw row
contributes, or `none` when the row is skipped (`row.len() < 2`, unusable
filename cell, empty filename, unusable page cell, or page number `0`). -/
def rowEntry (fts : ℚ → String) : List CellData → Option (String × Nat)
  | c0 :: c1 :: _ =>
    match cellToFilename fts c0 with
    | none => none
    | some filename =>
      if filename = "" then none
      else
        match cellToPageU32 c1 with
        | none => none
        | some page_num =>
          if page_num = 0 then none
          else some ((rustFileName filename).getD filename, page_num - 1)
  | _ => none

/-- The loop body of `read_excel_mappings`: insert the row's entry (if the
row is not skipped) into the table built so far. -/
def buildStep (fts : ℚ → String) (t : List (String × Nat))
    (row : List CellData) : List (String × Nat) :=
  match rowEntry fts row with
  | some kv => insertTable t kv.1 kv.2
  | none => t

/-- Model of `read_excel_mappings` over the rows of the first worksheet: fold the
per-row inserts (last write wins) into the mapping table. -/
def read_excel_mappings (fts : ℚ → String) (rows : List (List CellData)) :
    List (String × Nat) :=
  rows.foldl (buildStep fts) []

/-- The property "neither starts nor ends with a whitespace character". -/
def noEdgeWs (s : String) : Prop :=
  (∀ c, s.data.head? = some c → c.isWhitespace = false) ∧
  (∀ c, s.data.getLast? = some c → c.isWhitespace = false)

/-- Model of `match_pdf_name` from the source: exact lookup of the normalised name,
then with `.pdf` re-appended, then — only for names containing `"(1)"` —
the base-identity lookup and the scan over the table entries. -/
def match_pdf_name (pdf_filename : String) (mappings : List (String × Nat)) :
    Option Nat :=
  let pdf_base := normalize_filename pdf_filename
  match lookupTable mappings pdf_base with
  | some page => some page
  | none =>
    match lookupTable mappings (pdf_base ++ ".pdf") with
    | some page => some page
    | none =>
      if containsSubstr pdf_filename "(1)" || containsSubstr pdf_filename "(1)." then
        let pdf_base_name := extract_base_name pdf_filename
        match lookupTable mappings pdf_base_name with
        | some page => some page
        | none =>
          (mappings.find?
            (fun kv => extract_base_name kv.1 == pdf_base_name)).map Prod.snd
      else none

/-- Modelled from the spec: the Matcher's resolution order as §4.3 words it —
(1) look up `normalize(target)`; (2) look up `normalize(target) ++ ".pdf"`;
(3) only if the raw target contains the substring `"(1)"`, look up
`extractBaseIdentity(target)` directly and otherwise return the page of the
first table key with the same base identity; else `NoMatch`. Kept separate
from `match_pdf_name` so the two can be compared. -/
def matcherSpec (target : String) (table : List (String × Nat)) : Option Nat :=
  match lookupTable table (normalize_filename target) with
  | some page => some page
  | none =>
    match lookupTable table (normalize_filename target ++ ".pdf") with
    | some page => some page
    | none =>
      if containsSubstr target "(1)" then
        match lookupTable table (extract_base_name target) with
        | some page => some page
        | none =>
          (table.find?
            (fun kv => extract_base_name kv.1 == extract_base_name target)).map
            Prod.snd
      else none

/-- Externally observable results of the `qpdf` invocation and of the copy
inside one `process_pdf_with_qpdf` call. `writesTemp` is the content the
tool leaves at the process-unique temporary path (`none`: no file created). -/
structure QpdfEnv where
  statusSuccess : Bool
  writesTemp : Option (List Nat)
  stderrText : String
  copySuccess : Bool
  copyErrMsg : String
deriving DecidableEq

/-- File-system state relevant to one orchestrator call: the bytes of the
target PDF and the content (if any) at the temporary output path. -/
structure FsState where
  target : List Nat
  temp : Option (List Nat)
deriving DecidableEq

/-- File-system / subprocess actions the orchestrator performs, in order. -/
inductive FileEvent where
  | invokeQpdf
  | copyFile
  | removeFile
deriving DecidableEq

/-- Per-file terminal outcome: `inserted` is the source's `Ok(true)`,
`skipped` its `Ok(false)`, `failed msg` its `Err(msg)`. -/
inductive ProcOutcome where
  | inserted
  | skipped
  | failed (msg : String)
deriving DecidableEq

/-- The page-validation error message built at line 385 of the source. -/
def pageErrMsg (page_number bia_page_count : Nat) : String :=
  "Page number " ++ toString page_number ++ " exceeds bia.pdf page count ("
    ++ toString bia_page_count ++ ")"

/-- Model of `process_pdf_with_qpdf` from the source, with `qpdf` and the file system
abstracted into `QpdfEnv`/`FsState`: match the filename (no match ⇒ skip with
no I/O), validate `page_index + 1` against the reference page count, invoke
`qpdf` toward the temporary path, require success and an existing temporary
output, copy it over the target and only then delete it. A failing copy
returns through `?` before the `remove_file` line. -/
def process_pdf_with_qpdf (env : QpdfEnv) (filename : String)
    (mappings : List (String × Nat)) (bia_page_count : Nat) (s : FsState) :
    ProcOutcome × FsState × List FileEvent :=
  match match_pdf_name filename mappings with
  | none => (ProcOutcome.skipped, s, [])
  | some page_index =>
    let page_number := page_index + 1
    if bia_page_count < page_number then
      (ProcOutcome.failed (pageErrMsg page_number bia_page_count), s, [])
    else
      let s1 : FsState := ⟨s.target, env.writesTemp⟩
      if env.statusSuccess = false then
        (ProcOutcome.failed ("Failed to merge PDFs with qpdf: " ++ env.stderrText),
          s1, [FileEvent.invokeQpdf])
      else
        match s1.temp with
        | none =>
          (ProcOutcome.failed "Failed to create merged PDF", s1,
            [FileEvent.invokeQpdf])
        | some out =>
          if env.copySuccess then
            (ProcOutcome.inserted, ⟨out, none⟩,
              [FileEvent.invokeQpdf, FileEvent.copyFile, FileEvent.removeFile])
          else
            (ProcOutcome.failed env.copyErrMsg, ⟨s.target, some out⟩,
              [FileEvent.invokeQpdf, FileEvent.copyFile])

/-! ## Substring occurrences and the `"(1)"` gate -/

theorem containsSubstr_iff (s pat : String) :
    containsSubstr s pat = true ↔
      ∃ i, i < s.data.length + 1 ∧
        (s.data.drop i).take pat.data.length = pat.data := by
  unfold containsSubstr findSubstr
  rw [List.find?_isSome]
  constructor
  · rintro ⟨i, hi, hp⟩
    exact ⟨i, List.mem_range.mp hi, by simpa using hp⟩
  · rintro ⟨i, hi, hp⟩
    exact ⟨i, List.mem_range.mpr hi, by simpa using hp⟩

theorem contains_one_dot_imp (s : String)
    (h : containsSubstr s "(1)." = true) : containsSubstr s "(1)" = true := by
  rcases (containsSubstr_iff s "(1).").mp h with ⟨i, hi, hp⟩
  apply (containsSubstr_iff s "(1)").mpr
  refine ⟨i, hi, ?_⟩
  have e4 : (s.data.drop i).take 4 = ['(', '1', ')', '.'] := by simpa using hp
  have e3 := congrArg (List.take 3) e4
  rw [List.take_take] at e3
  norm_num at e3
  simpa using e3

theorem gate_eq (s : String) :
    (containsSubstr s "(1)" || containsSubstr s "(1).") = containsSubstr s "(1)" := by
  cases h : containsSubstr s "(1)." with
  | false => cases containsSubstr s "(1)" <;> simp
  | true => simp [contains_one_dot_imp s h]

/-! ## Lookup and scan produce only table values -/

theorem lookupTable_mem (t : List (String × Nat)) (k : String) (v : Nat)
    (h : lookupTable t k = some v) : v ∈ t.map Prod.snd := by
  induction t with
  | nil => simp [lookupTable] at h
  | cons hd tl ih =>
    obtain ⟨x, y⟩ := hd
    simp only [lookupTable] at h
    by_cases hx : x = k
    · rw [if_pos hx] at h
      injection h with h2
      simp [h2]
    · rw [if_neg hx] at h
      simp [ih h]

/-- C1: the Matcher resolves in exactly the spec's order — normalised lookup,
then with `".pdf"` re-appended, then, gated on the raw name containing the
substring `"(1)"`, the base-identity lookup followed by the scan over the
table; otherwise `NoMatch`. -/
theorem match_pdf_name_eq_matcherSpec (target : String)
    (table : List (String × Nat)) :
    match_pdf_name target table = matcherSpec target table := by
  simp only [match_pdf_name, matcherSpec, gate_eq]

/-- C6: with the table `{"report" ↦ 2}` the target `"report (2).pdf"`
resolves to `NoMatch`, because no exact rule applies and the duplicate-suffix
rule is gated on the substring `"(1)"`. -/
theorem report_two_no_match :
    match_pdf_name "report (2).pdf" [("report", 2)] = none := by decide

/-- C10: whenever the Matcher resolves a page index, that index is one of the
values stored in the table — the Matcher never fabricates a page index. -/
theorem match_pdf_name_sound (target : String) (table : List (String × Nat))
    (p : Nat) (h : match_pdf_name target table = some p) :
    p ∈ table.map Prod.snd := by
  simp only [match_pdf_name] at h
  split at h
  · rename_i page heq
    injection h with h2
    subst h2
    exact lookupTable_mem _ _ _ heq
  · rename_i heq1
    split at h
    · rename_i page heq
      injection h with h2
      subst h2
      exact lookupTable_mem _ _ _ heq
    · rename_i heq2
      split at h
      · split at h
        · rename_i page heq
          injection h with h2
          subst h2
          exact lookupTable_mem _ _ _ heq
        · rename_i heq3
          rcases Option.map_eq_some'.mp h with ⟨kv, hfind, hsnd⟩
          exact List.mem_map.mpr ⟨kv, List.mem_of_find?_eq_some hfind, hsnd⟩
      · exact absurd h (by simp)

/-- Witness for `match_pdf_name_sound` at a concrete table and target. -/
theorem match_pdf_name_sound_witness :
    (2 : Nat) ∈ [("report", 2)].map Prod.snd :=
  match_pdf_name_sound "report.pdf" [("report", 2)] 2 (by decide)

/-! ## Mapping-table construction -/

theorem lookup_insertTable (t : List (String × Nat)) (k : String) (v : Nat)
    (x : String) :
    lookupTable (insertTable t k v) x
      = if k = x then some v else lookupTable t x := by
  induction t with
  | nil => simp only [insertTable, lookupTable]
  | cons hd tl ih =>
    obtain ⟨a, b⟩ := hd
    simp only [insertTable]
    by_cases hak : a = k
    · subst hak
      rw [if_pos rfl]
      simp only [lookupTable]
      by_cases hax : a = x <;> simp [hax]
    · rw [if_neg hak]
      simp only [lookupTable, ih]
      by_cases hax : a = x <;> by_cases hkx : k = x
      · exact absurd (hax.trans hkx.symm) hak
      · simp [hax, hkx]
      · simp [hax, hkx]
      · simp [hax, hkx]

theorem lookup_foldl_no_key (fts : ℚ → String) (rows : List (List CellData))
    (t : List (String × Nat)) (k : String)
    (h : ∀ r ∈ rows, ∀ v, rowEntry fts r ≠ some (k, v)) :
    lookupTable (rows.foldl (buildStep fts) t) k = lookupTable t k := by
  induction rows generalizing t with
  | nil => rfl
  | cons r rows ih =>
    rw [List.foldl_cons]
    rw [ih _ (fun r2 hr2 v => h r2 (List.mem_cons_of_mem _ hr2) v)]
    unfold buildStep
    cases he : rowEntry fts r with
    | none => rfl
    | some kv =>
      obtain ⟨k2, v2⟩ := kv
      rw [lookup_insertTable]
      have hne : ¬ k2 = k :=
        fun hk => h r (List.mem_cons_self _ _) v2 (by rw [he, hk])
      rw [if_neg hne]

/-- C7: insertion is last-write-wins — a row producing an entry for key `k`,
with no later row producing an entry for `k`, determines the table's value
at `k`, whatever earlier rows (with the same key or not) contributed. -/
theorem mappings_last_write_wins (fts : ℚ → String)
    (rows1 rows2 : List (List CellData)) (r : List CellData) (k : String)
    (v : Nat) (hr : rowEntry fts r = some (k, v))
    (h2 : ∀ r2 ∈ rows2, ∀ v2, rowEntry fts r2 ≠ some (k, v2)) :
    lookupTable (read_excel_mappings fts (rows1 ++ r :: rows2)) k = some v := by
  unfold read_excel_mappings
  rw [List.foldl_append, List.foldl_cons]
  rw [lookup_foldl_no_key fts rows2 _ k h2]
  unfold buildStep
  rw [hr]
  rw [lookup_insertTable, if_pos rfl]

/-- Witness for `mappings_last_write_wins`: two rows both map `"a"`, the
second (page 5, index 4) wins over the first (page 1, index 0). -/
theorem mappings_last_write_wins_witness :
    lookupTable
      (read_excel_mappings (fun _ => "")
        [[CellData.str "a", CellData.int 1], [CellData.str "a", CellData.int 5]])
      "a" = some 4 :=
  mappings_last_write_wins (fun _ => "") [[CellData.str "a", CellData.int 1]]
    [] [CellData.str "a", CellData.int 5] "a" 4 (by decide) (by simp)

/-- C9: every accepted row reaches the `page_num - 1` subtraction with a
converted page number of at least `1` (rows converting to `0` were skipped),
so the stored index satisfies `v + 1 = page_num` — the unsigned subtraction
cannot underflow. -/
theorem page_index_subtraction_safe (fts : ℚ → String) (row : List CellData)
    (k : String) (v : Nat) (h : rowEntry fts row = some (k, v)) :
    ∃ c0 c1 rest pn, row = c0 :: c1 :: rest ∧ cellToPageU32 c1 = some pn ∧
      1 ≤ pn ∧ v + 1 = pn := by
  match row with
  | [] => simp [rowEntry] at h
  | [c0] => simp [rowEntry] at h
  | c0 :: c1 :: rest =>
    refine ⟨c0, c1, rest, ?_⟩
    simp only [rowEntry] at h
    split at h
    · exact absurd h (by simp)
    · rename_i filename hf
      split at h
      · exact absurd h (by simp)
      · split at h
        · exact absurd h (by simp)
        · rename_i page_num hp
          split at h
          · exact absurd h (by simp)
          · rename_i hpz
            injection h with h2
            have hv := congrArg Prod.snd h2
            simp only at hv
            exact ⟨page_num, rfl, hp, by omega, by omega⟩

/-- Witness for `page_index_subtraction_safe` at the row `("a", 1)`. -/
theorem page_index_subtraction_safe_witness :
    ∃ c0 c1 rest pn,
      [CellData.str "a", CellData.int 1] = c0 :: c1 :: rest ∧
        cellToPageU32 c1 = some pn ∧ 1 ≤ pn ∧ (0 : Nat) + 1 = pn :=
  page_index_subtraction_safe (fun _ => "") [CellData.str "a", CellData.int 1]
    "a" 0 (by decide)

/-- C4 counterexample: the integer page cell `-1` is negative, yet the row
creates an entry — the `i64 as u32` cast wraps `-1` to `4294967295`, which
passes the `page_num == 0` check and is stored as index `4294967294`. -/
theorem negative_int_page_creates_entry :
    rowEntry (fun _ => "") [CellData.str "a", CellData.int (-1)]
      = some ("a", 4294967294) := by decide

/-- C4 (amended): the page cell is cast with `u32` semantics before the
zero test. An integer cell is reduced mod `2 ^ 32` (so negative integers
wrap and create entries) and the row is dropped exactly when that residue is
`0`; a floating cell saturates (non-positive values become `0` and are
dropped; values ≥ 1 create an entry at the truncated value minus one). -/
theorem page_cell_cast_behavior (fts : ℚ → String) (name : String)
    (rest : List CellData) (hname : ¬ rustTrim name = "") :
    (∀ i : Int,
      rowEntry fts (CellData.str name :: CellData.int i :: rest) =
        if i64AsU32 i = 0 then none
        else some ((rustFileName (rustTrim name)).getD (rustTrim name),
          i64AsU32 i - 1))
    ∧ (∀ q : ℚ, q ≤ 0 →
        rowEntry fts (CellData.str name :: CellData.float q :: rest) = none)
    ∧ (∀ q : ℚ, 1 ≤ q →
        rowEntry fts (CellData.str name :: CellData.float q :: rest) =
          some ((rustFileName (rustTrim name)).getD (rustTrim name),
            f64AsU32 q - 1)) := by
  refine ⟨?_, ?_, ?_⟩
  · intro i
    simp only [rowEntry, cellToFilename, cellToPageU32]
    rw [if_neg hname]
  · intro q hq
    have h0 : f64AsU32 q = 0 := by unfold f64AsU32; rw [if_pos hq]
    simp only [rowEntry, cellToFilename, cellToPageU32]
    rw [if_neg hname]
    simp [h0]
  · intro q hq
    have h0 : ¬ f64AsU32 q = 0 := by
      unfold f64AsU32
      rw [if_neg (by linarith : ¬ q ≤ 0)]
      have h1 : (1 : Int) ≤ Rat.floor q := Rat.le_floor.mpr (by exact_mod_cast hq)
      have h2 : 1 ≤ (Rat.floor q).toNat := by omega
      have h3 : (1 : Nat) ≤ 2 ^ 32 - 1 := by norm_num
      exact Nat.one_le_iff_ne_zero.mp (le_min h2 h3)
    simp only [rowEntry, cellToFilename, cellToPageU32]
    rw [if_neg hname]
    simp [h0]

/-- Witness for `page_cell_cast_behavior`: a float page cell of `3` yields
an entry at index `2`. -/
theorem page_cell_cast_behavior_witness :
    rowEntry (fun _ => "") [CellData.str "a", CellData.float 3]
      = some ("a", 2) := by
  have h := (page_cell_cast_behavior (fun _ => "") "a" [] (by decide)).2.2 3
    (by norm_num)
  rw [h]
  decide

/-! ## Merge orchestration -/

/-- C2: a resolved page index whose 1-based page number exceeds the
reference page count makes the orchestrator fail with the descriptive
message, before any file I/O: the state (in particular the target's bytes)
is returned untouched and no event is performed. -/
theorem page_overflow_fails_untouched (env : QpdfEnv) (filename : String)
    (mappings : List (String × Nat)) (bia_page_count : Nat) (s : FsState)
    (page_index : Nat)
    (hm : match_pdf_name filename mappings = some page_index)
    (hgt : bia_page_count < page_index + 1) :
    process_pdf_with_qpdf env filename mappings bia_page_count s =
      (ProcOutcome.failed (pageErrMsg (page_index + 1) bia_page_count), s, []) := by
  unfold process_pdf_with_qpdf
  rw [hm]
  simp [hgt]

/-- Witness for `page_overflow_fails_untouched`: `"a"` resolves to index `6`
(page 7) against a 5-page reference. -/
theorem page_overflow_fails_untouched_witness :
    process_pdf_with_qpdf ⟨true, none, "", true, ""⟩ "a" [("a", 6)] 5
        ⟨[0], none⟩ =
      (ProcOutcome.failed (pageErrMsg 7 5), ⟨[0], none⟩, []) :=
  page_overflow_fails_untouched ⟨true, none, "", true, ""⟩ "a" [("a", 6)] 5
    ⟨[0], none⟩ 6 (by decide) (by decide)

/-- C3 counterexample: on the copy-failure path the temporary file is not
deleted — `fs::copy(..)?` returns before the `remove_file` line, so the
final state still holds the temporary output and no remove event happened. -/
theorem temp_not_deleted_on_copy_failure :
    (process_pdf_with_qpdf ⟨true, some [1], "", false, "copy failed"⟩ "a"
        [("a", 0)] 1 ⟨[0], none⟩).2.1.temp = some [1] ∧
      FileEvent.removeFile ∉
        (process_pdf_with_qpdf ⟨true, some [1], "", false, "copy failed"⟩ "a"
          [("a", 0)] 1 ⟨[0], none⟩).2.2 := by
  constructor
  · decide
  · decide

/-- C3 (amended): once the copy step is reached, the temporary file is
deleted only when the copy succeeds; a failing copy yields `Failed` and
leaves the temporary file in place (no remove event). -/
theorem temp_cleanup_only_on_copy_success (env : QpdfEnv) (filename : String)
    (mappings : List (String × Nat)) (bia_page_count : Nat) (s : FsState)
    (page_index : Nat) (out : List Nat)
    (hm : match_pdf_name filename mappings = some page_index)
    (hle : page_index + 1 ≤ bia_page_count)
    (hq : env.statusSuccess = true)
    (ht : env.writesTemp = some out) :
    (env.copySuccess = true →
      process_pdf_with_qpdf env filename mappings bia_page_count s =
        (ProcOutcome.inserted, ⟨out, none⟩,
          [FileEvent.invokeQpdf, FileEvent.copyFile, FileEvent.removeFile]))
    ∧ (env.copySuccess = false →
      process_pdf_with_qpdf env filename mappings bia_page_count s =
        (ProcOutcome.failed env.copyErrMsg, ⟨s.target, some out⟩,
          [FileEvent.invokeQpdf, FileEvent.copyFile])) := by
  have hnlt : ¬ bia_page_count < page_index + 1 := Nat.not_lt.mpr hle
  constructor <;> intro hc <;>
    simp [process_pdf_with_qpdf, hm, hnlt, hq, ht, hc]

/-- Witness for `temp_cleanup_only_on_copy_success` on the success branch:
the temporary content `[1]` replaces the target and the temp is removed. -/
theorem temp_cleanup_only_on_copy_success_witness :
    process_pdf_with_qpdf ⟨true, some [1], "", true, ""⟩ "a" [("a", 0)] 1
        ⟨[0], none⟩ =
      (ProcOutcome.inserted, ⟨[1], none⟩,
        [FileEvent.invokeQpdf, FileEvent.copyFile, FileEvent.removeFile]) :=
  (temp_cleanup_only_on_copy_success ⟨true, some [1], "", true, ""⟩ "a"
    [("a", 0)] 1 ⟨[0], none⟩ 0 [1] (by decide) (by decide) rfl rfl).1 rfl

/-- C8: a target whose name the Matcher cannot resolve is skipped with no
side effect at all — the state is unchanged and the event list is empty (no
tool invocation, no temporary file, no write to the target). -/
theorem no_match_skips_no_side_effects (env : QpdfEnv) (filename : String)
    (mappings : List (String × Nat)) (bia_page_count : Nat) (s : FsState)
    (hm : match_pdf_name filename mappings = none) :
    process_pdf_with_qpdf env filename mappings bia_page_count s =
      (ProcOutcome.skipped, s, []) := by
  unfold process_pdf_with_qpdf
  rw [hm]

/-- Witness for `no_match_skips_no_side_effects` on an empty table. -/
theorem no_match_skips_no_side_effects_witness :
    process_pdf_with_qpdf ⟨true, none, "", true, ""⟩ "x" [] 5 ⟨[0], none⟩ =
      (ProcOutcome.skipped, ⟨[0], none⟩, []) :=
  no_match_skips_no_side_effects ⟨true, none, "", true, ""⟩ "x" [] 5
    ⟨[0], none⟩ (by decide)

/-! ## Trimming behaviour of `extract_base_name` -/

theorem head?_dropWhile_false (p : Char → Bool) (l : List Char) (c : Char)
    (h : (l.dropWhile p).head? = some c) : p c = false := by
  induction l with
  | nil => simp [List.dropWhile] at h
  | cons a t ih =>
    rw [List.dropWhile_cons] at h
    by_cases hpa : p a = true
    · rw [if_pos hpa] at h
      exact ih h
    · rw [if_neg hpa] at h
      simp only [List.head?] at h
      injection h with h2
      subst h2
      simpa using hpa

theorem dropWhile_suffix_getLast (p : Char → Bool) (l : List Char)
    (h : l.dropWhile p ≠ []) :
    (l.dropWhile p).getLast? = l.getLast? := by
  conv_rhs => rw [← List.takeWhile_append_dropWhile p l]
  rw [List.getLast?_append]
  cases hg : (l.dropWhile p).getLast? with
  | none => exact absurd (List.getLast?_eq_none_iff.mp hg) h
  | some c => rfl

theorem rustTrim_noEdgeWs (s : String) : noEdgeWs (rustTrim s) := by
  unfold noEdgeWs rustTrim
  constructor
  · intro c hc
    simp only at hc
    rw [List.head?_reverse] at hc
    have hm : ((s.data.dropWhile Char.isWhitespace).reverse.dropWhile
        Char.isWhitespace) ≠ [] := by
      intro he
      rw [he] at hc
      simp at hc
    rw [dropWhile_suffix_getLast _ _ hm, List.getLast?_reverse] at hc
    exact head?_dropWhile_false _ _ _ hc
  · intro c hc
    simp only at hc
    rw [List.getLast?_reverse] at hc
    exact head?_dropWhile_false _ _ _ hc

theorem contains_space_paren (n : String)
    (h : containsSubstr n " (" = true) : containsSubstr n "(" = true := by
  rcases (containsSubstr_iff n " (").mp h with ⟨i, hi, hp⟩
  have e2 : (n.data.drop i).take 2 = [' ', '('] := by simpa using hp
  cases hdi : n.data.drop i with
  | nil => rw [hdi] at e2; simp at e2
  | cons a t =>
    rw [hdi] at e2
    simp only [List.take] at e2
    have ha : a = ' ' := (List.cons.injEq _ _ _ _ ▸ e2).1
    have ht1 : t.take 1 = ['('] := (List.cons.injEq _ _ _ _ ▸ e2).2
    have hlen : i < n.data.length := by
      by_contra hge
      rw [List.drop_eq_nil_of_le (Nat.le_of_not_lt hge)] at hdi
      exact absurd hdi.symm (by simp)
    apply (containsSubstr_iff n "(").mpr
    refine ⟨i + 1, by omega, ?_⟩
    have hdrop : n.data.drop (i + 1) = t := by
      rw [← List.drop_drop, hdi]
      rfl
    rw [hdrop]
    simpa using ht1

/-- C5 counterexample: for the input `"a "` (no parenthesis in the
normalised value) `extract_base_name` returns the normalised value
unchanged, which ends in a space — the result is not whitespace-trimmed. -/
theorem extract_base_name_untrimmed_no_paren :
    ¬ noEdgeWs (extract_base_name "a ") := by
  intro h
  exact absurd (h.2 ' ' (by decide)) (by decide)

/-- C5 (amended): the result of `extract_base_name` is whitespace-trimmed
exactly when the normalised value contains a `"("` (a parenthesised suffix
was cut); when it contains no `"("` the normalised value is returned
unchanged, surrounding whitespace included. -/
theorem extract_base_name_trim_behavior (s : String) :
    (containsSubstr (normalize_filename s) "(" = true →
      noEdgeWs (extract_base_name s))
    ∧ (containsSubstr (normalize_filename s) "(" = false →
      extract_base_name s = normalize_filename s) := by
  constructor
  · intro h
    simp only [extract_base_name]
    cases h1 : findSubstr (normalize_filename s) " (" with
    | some pos => exact rustTrim_noEdgeWs _
    | none =>
      cases h2 : findSubstr (normalize_filename s) "(" with
      | some pos => exact rustTrim_noEdgeWs _
      | none =>
        refine absurd h ?_
        unfold containsSubstr
        rw [h2]
        simp
  · intro h
    have h2 : findSubstr (normalize_filename s) "(" = none := by
      cases hx : findSubstr (normalize_filename s) "(" with
      | none => rfl
      | some i =>
        have hs : containsSubstr (normalize_filename s) "(" = true := by
          unfold containsSubstr
          rw [hx]
          rfl
        rw [hs] at h
        exact absurd h (by simp)
    have h1 : findSubstr (normalize_filename s) " (" = none := by
      cases hx : findSubstr (normalize_filename s) " (" with
      | none => rfl
      | some i =>
        have hs : containsSubstr (normalize_filename s) " (" = true := by
          unfold containsSubstr
          rw [hx]
          rfl
        have := contains_space_paren _ hs
        rw [this] at h
        exact absurd h (by simp)
    simp only [extract_base_name]
    rw [h1, h2]

/-- Witness for `extract_base_name_trim_behavior`: `"a (1)"` normalises to a
value containing `"("`, so the extracted base is whitespace-free. -/
theorem extract_base_name_trim_behavior_witness :
    noEdgeWs (extract_base_name "a (1)") :=
  (extract_base_name_trim_behavior "a (1)").1 (by decide)

/-- Unit checks of the Normalizer against the spec's §8 table: path and
extension stripping, and base-identity extraction on the three documented
shapes, plus the two Matcher resolutions of §8 that no claim covers. -/
theorem normalizer_unit_facts :
    normalize_filename "a/b/report.pdf" = "report" ∧
      normalize_filename "report.PDF" = "report" ∧
      normalize_filename "report.txt" = "report.txt" ∧
      extract_base_name "report (1).pdf" = "report" ∧
      extract_base_name "report(2).pdf" = "report" ∧
      extract_base_name "report.pdf" = "report" ∧
      match_pdf_name "report.pdf" [("report", 2)] = some 2 ∧
      match_pdf_name "report (1).pdf" [("report", 2)] = some 2 := by
  decide

end InsertBia
